import Mathlib

/-!
Shallow embedding of `src/memstats_linux.go` (package sysstats).

The Go routine `getMemStats` opens `/proc/meminfo`, scans it line by line with a
`bufio.Scanner` split on lines, matches each line against the regular expression

  `^((?:Mem|Swap)(?:Total|Free)|Buffers|Cached|SwapCached|Active|Inactive|Dirty|Writeback|Mapped|Slab|Commit(?:Limit|ted_AS)):\s*(\d+)`

parses the captured digit run with `strconv.ParseUint(stat[2], 10, 64)`, stores
the value in a `map[string]uint64` (a failed parse only skips the line), and
finally stores the three derived keys `MemUsed`, `SwapUsed` and `RealFree`,
computed with uint64 arithmetic from the map, where a missing key reads as 0.

A source is modelled as the list of text lines the scanner yields; a line is a
list of characters. The outcome of `os.Open` is modelled as `Except String`
content, an open failure carrying the error text. The Go return pair
`(memStats, err)` is modelled as `Option MemStats × Option String`, with `none`
for Go's `nil` in each component. Machine integers are natural numbers reduced
modulo `2 ^ 64` exactly where the Go code can overflow or underflow.
-/

namespace Sysstats

/-- Character class of Go regexp `\s` (the RE2 Perl class): tab, newline,
form feed, carriage return, space. -/
def isWS (c : Char) : Bool :=
  c = '\t' || c = '\n' || c = '\x0c' || c = '\r' || c = ' '

/-- Character class of Go regexp `\d`: the decimal digits. -/
def isDigit (c : Char) : Bool :=
  '0' ≤ c && c ≤ '9'

/-- If `p` is an initial segment of `l`, return the rest of `l` after it. -/
def stripLead : List Char → List Char → Option (List Char)
  | [], l => some l
  | _ :: _, [] => none
  | c :: p, d :: l => if c = d then stripLead p l else none

/-- The field names recognized by the regular expression, in the order the
alternation tries them: `(?:Mem|Swap)(?:Total|Free)` expands to MemTotal,
MemFree, SwapTotal, SwapFree, followed by the remaining literal alternatives. -/
def memInfoFields : List String :=
  ["MemTotal", "MemFree", "SwapTotal", "SwapFree", "Buffers", "Cached",
   "SwapCached", "Active", "Inactive", "Dirty", "Writeback", "Mapped",
   "Slab", "CommitLimit", "Committed_AS"]

/-- Try each alternative field name in order. The regex is anchored at the
start of the line and each alternative must be followed immediately by a
colon; on success return the matched name and the rest of the line. -/
def findFieldMatch : List String → List Char → Option (String × List Char)
  | [], _ => none
  | k :: ks, l =>
    match stripLead (k.data ++ [':']) l with
    | some rest => some (k, rest)
    | none => findFieldMatch ks l

/-- Model of `re.FindStringSubmatch` for the meminfo regular expression: on a
match it returns the two submatches (field name, captured digit run). `\s*` is
greedy and `\s` and `\d` are disjoint, so the whitespace run and then the digit
run are maximal; the digit run must be nonempty (`\d+`); any trailing text
after it is unconstrained. -/
def reFindSubmatch (l : List Char) : Option (String × List Char) :=
  match findFieldMatch memInfoFields l with
  | none => none
  | some (k, rest) =>
    let ds := (rest.dropWhile isWS).takeWhile isDigit
    if ds = [] then none else some (k, ds)

/-- Numeric value of a digit string, most significant digit first. -/
def digitsVal (l : List Char) : Nat :=
  l.foldl (fun a c => a * 10 + (c.toNat - 48)) 0

/-- Modulus of Go's uint64. -/
def U64 : Nat := 2 ^ 64

/-- Model of `strconv.ParseUint s 10 64`: it fails on the empty string, on any
character that is not a decimal digit, and when the value does not fit in
64 bits (Go's ErrRange). -/
def parseUint64 (s : List Char) : Option Nat :=
  if s = [] then none
  else if s.all isDigit then
    if digitsVal s < U64 then some (digitsVal s) else none
  else none

/-- MemStats is Go's `map[string]uint64`; a key that was never assigned is
`none`. Stored values are kept below `2 ^ 64` by construction. -/
abbrev MemStats := String → Option Nat

/-- The empty map `MemStats{}`. -/
def emptyStats : MemStats := fun _ => none

/-- Map assignment `m[k] = v`. -/
def mapSet (m : MemStats) (k : String) (v : Nat) : MemStats :=
  fun k' => if k' = k then some v else m k'

/-- Go map read `m[k]`: a missing key reads as the zero value of uint64. -/
def lookup0 (m : MemStats) (k : String) : Nat :=
  (m k).getD 0

/-- Loop body for one scanned line (lines 62-77 of the source): no regex match
or a ParseUint failure leaves the map unchanged, otherwise the parsed value is
stored under the matched field name. -/
def processLine (m : MemStats) (l : List Char) : MemStats :=
  match reFindSubmatch l with
  | none => m
  | some (k, ds) =>
    match parseUint64 ds with
    | none => m
    | some v => mapSet m k v

/-- The scanning loop over all lines of the source, starting from `MemStats{}`. -/
def scanLines (lines : List (List Char)) : MemStats :=
  lines.foldl processLine emptyStats

/-- Go uint64 subtraction `a - b`, for `a` and `b` below `2 ^ 64`. -/
def u64sub (a b : Nat) : Nat := (a + U64 - b) % U64

/-- Lines 79-81 of the source: store the three derived keys in order, reading
the operands from the map with Go's zero default, in uint64 arithmetic. -/
def addDerived (m : MemStats) : MemStats :=
  let m1 := mapSet m "MemUsed" (u64sub (lookup0 m "MemTotal") (lookup0 m "MemFree"))
  let m2 := mapSet m1 "SwapUsed" (u64sub (lookup0 m1 "SwapTotal") (lookup0 m1 "SwapFree"))
  mapSet m2 "RealFree" ((lookup0 m2 "MemFree" + lookup0 m2 "Buffers" + lookup0 m2 "Cached") % U64)

/-- The routine `getMemStats`: an `os.Open` failure is returned immediately as
`(nil, err)`; otherwise every line is scanned, the three derived keys are
stored, and the call returns `(memStats, nil)`. -/
def getMemStats (openResult : Except String (List (List Char))) :
    Option MemStats × Option String :=
  match openResult with
  | .error e => (none, some e)
  | .ok lines => (some (addDerived (scanLines lines)), none)

/-- The recognition pattern as the specification words it (independent of the
regex model above, for comparison with it): the line consists of one of the
fifteen recognized field names, immediately followed by a colon, optional
whitespace, and one or more decimal digits, any trailing text being ignored.
`ds` is the captured digit sequence; it is maximal in that the trailing text
does not begin with a digit. -/
def specMatches (l : List Char) (k : String) (ds : List Char) : Prop :=
  k ∈ memInfoFields ∧ ds ≠ [] ∧ (∀ c ∈ ds, isDigit c = true) ∧
  ∃ ws rest, (∀ c ∈ ws, isWS c = true) ∧
    (∀ c ∈ rest.take 1, isDigit c = false) ∧
    l = k.data ++ ':' :: (ws ++ (ds ++ rest))

/-- The line validly stores a value under field `k`: it matches the regular
expression with field name `k` and its digit run parses as a uint64. -/
def setsKey (l : List Char) (k : String) : Bool :=
  match reFindSubmatch l with
  | some (k', ds) => k' == k && decide (digitsVal ds < U64)
  | none => false

/-- A text line of a synthetic source. -/
def lineOf (s : String) : List Char := s.data

/-- Synthetic source of the first example of the spec's testable properties. -/
def exMem : List (List Char) := [lineOf "MemTotal: 1000 kB", lineOf "MemFree: 200 kB"]

/-- Synthetic source of the second example of the spec's testable properties. -/
def exSwap : List (List Char) := [lineOf "SwapTotal: 500 kB", lineOf "SwapFree: 100 kB"]

/-- Synthetic source of the third example of the spec's testable properties. -/
def exReal : List (List Char) :=
  [lineOf "MemFree: 200 kB", lineOf "Buffers: 50 kB", lineOf "Cached: 30 kB"]

/-- A recognized line whose digit run denotes `2 ^ 64`, one past the uint64 range. -/
def overLine : List Char := lineOf "MemTotal: 18446744073709551616 kB"

theorem mapSet_same (m : MemStats) (k : String) (v : Nat) : mapSet m k v k = some v := by
  simp [mapSet]

theorem mapSet_ne (m : MemStats) (k k' : String) (v : Nat) (h : k' ≠ k) :
    mapSet m k v k' = m k' := by
  simp [mapSet, h]

theorem stripLead_eq_some (p : List Char) :
    ∀ l r, stripLead p l = some r ↔ l = p ++ r := by
  induction p with
  | nil => intro l r; simp [stripLead]
  | cons c p ih =>
    intro l r
    cases l with
    | nil => simp [stripLead]
    | cons d l =>
      simp only [stripLead, List.cons_append, List.cons.injEq]
      by_cases h : c = d
      · subst h; simp [ih]
      · rw [if_neg h]
        simp [Ne.symm h]

theorem findFieldMatch_some : ∀ (ks : List String) (l : List Char) (k : String) (r : List Char),
    findFieldMatch ks l = some (k, r) →
    k ∈ ks ∧ stripLead (k.data ++ [':']) l = some r := by
  intro ks
  induction ks with
  | nil => intro l k r h; exact absurd h (by simp [findFieldMatch])
  | cons k0 ks ih =>
    intro l k r h
    cases hs : stripLead (k0.data ++ [':']) l with
    | some rest =>
      simp only [findFieldMatch, hs, Option.some.injEq, Prod.mk.injEq] at h
      obtain ⟨hk, hr⟩ := h
      subst hk; subst hr
      exact ⟨List.mem_cons_self _ _, hs⟩
    | none =>
      simp only [findFieldMatch, hs] at h
      have := ih l k r h
      exact ⟨List.mem_cons_of_mem _ this.1, this.2⟩

theorem findFieldMatch_eq_some : ∀ (ks : List String) (l : List Char) (k : String) (r : List Char),
    k ∈ ks → stripLead (k.data ++ [':']) l = some r →
    (∀ k' ∈ ks, ∀ r', stripLead (k'.data ++ [':']) l = some r' → k' = k) →
    findFieldMatch ks l = some (k, r) := by
  intro ks
  induction ks with
  | nil => intro l k r hk; cases hk
  | cons k0 ks ih =>
    intro l k r hk hs huniq
    cases hs0 : stripLead (k0.data ++ [':']) l with
    | some rest =>
      have hk0 : k0 = k := huniq k0 (List.mem_cons_self _ _) rest hs0
      subst hk0
      rw [hs0] at hs
      have : rest = r := Option.some.inj hs
      subst this
      simp [findFieldMatch, hs0]
    | none =>
      have hk' : k ∈ ks := by
        cases List.mem_cons.mp hk with
        | inl h => subst h; rw [hs0] at hs; cases hs
        | inr h => exact h
      simp only [findFieldMatch, hs0]
      exact ih l k r hk' hs fun k' hmem r' h' => huniq k' (List.mem_cons_of_mem _ hmem) r' h'

theorem findFieldMatch_none : ∀ (ks : List String) (l : List Char),
    (∀ k ∈ ks, stripLead (k.data ++ [':']) l = none) →
    findFieldMatch ks l = none := by
  intro ks
  induction ks with
  | nil => intro l _; rfl
  | cons k0 ks ih =>
    intro l h
    simp only [findFieldMatch, h k0 (List.mem_cons_self _ _)]
    exact ih l fun k hk => h k (List.mem_cons_of_mem _ hk)

theorem stripLead_total : ∀ (l p q rp rq : List Char),
    stripLead p l = some rp → stripLead q l = some rq →
    (stripLead p q).isSome = true ∨ (stripLead q p).isSome = true := by
  intro l
  induction l with
  | nil =>
    intro p q rp rq hp _
    cases p with
    | nil => left; cases q <;> simp [stripLead]
    | cons c p => simp [stripLead] at hp
  | cons d l ih =>
    intro p q rp rq hp hq
    cases p with
    | nil => left; cases q <;> simp [stripLead]
    | cons c p =>
      cases q with
      | nil => right; simp [stripLead]
      | cons e q =>
        simp only [stripLead] at hp hq
        by_cases hc : c = d
        · by_cases he : e = d
          · subst hc; subst he
            rw [if_pos rfl] at hp hq
            cases ih p q rp rq hp hq with
            | inl h => left; simpa [stripLead] using h
            | inr h => right; simpa [stripLead] using h
          · rw [if_neg he] at hq; cases hq
        · rw [if_neg hc] at hp; cases hp

/-- No two distinct recognized field names, each followed by its colon, can
both begin the same line. -/
theorem memInfoFields_noOverlap :
    ∀ k ∈ memInfoFields, ∀ k' ∈ memInfoFields,
      (stripLead (k.data ++ [':']) (k'.data ++ [':'])).isSome = true → k = k' := by
  decide

theorem matched_key_unique (l : List Char) (k k' : String) (r r' : List Char)
    (hk : k ∈ memInfoFields) (hk' : k' ∈ memInfoFields)
    (h : stripLead (k.data ++ [':']) l = some r)
    (h' : stripLead (k'.data ++ [':']) l = some r') : k' = k := by
  cases stripLead_total l (k.data ++ [':']) (k'.data ++ [':']) r r' h h' with
  | inl hh => exact (memInfoFields_noOverlap k hk k' hk' hh).symm
  | inr hh => exact memInfoFields_noOverlap k' hk' k hk hh

theorem mem_takeWhile_pred (p : Char → Bool) : ∀ (l : List Char) (a : Char),
    a ∈ l.takeWhile p → p a = true := by
  intro l
  induction l with
  | nil => intro a h; cases h
  | cons x xs ih =>
    intro a h
    by_cases hx : p x
    · rw [List.takeWhile_cons_of_pos hx] at h
      cases List.mem_cons.mp h with
      | inl he => subst he; exact hx
      | inr he => exact ih a he
    · rw [List.takeWhile_cons_of_neg hx] at h; cases h

theorem head_dropWhile_false (p : Char → Bool) (l : List Char) :
    ∀ c, (l.dropWhile p).head? = some c → p c = false := by
  intro c hc
  have h := List.head?_dropWhile_not p l
  rw [hc] at h
  exact h

theorem isWS_of_isDigit (c : Char) (h : isDigit c = true) : isWS c = false := by
  cases hw : isWS c with
  | false => rfl
  | true =>
    exfalso
    simp only [isWS, Bool.or_eq_true, decide_eq_true_eq] at hw
    rcases hw with (((h1 | h1) | h1) | h1) | h1 <;> subst h1 <;>
      exact absurd h (by decide)

theorem parseUint64_digits (s : List Char) (hne : s ≠ [])
    (hdig : ∀ c ∈ s, isDigit c = true) :
    parseUint64 s = if digitsVal s < U64 then some (digitsVal s) else none := by
  simp [parseUint64, hne, List.all_eq_true.mpr hdig]

theorem parseUint64_lt (s : List Char) (v : Nat) (h : parseUint64 s = some v) :
    v < U64 := by
  unfold parseUint64 at h
  split at h
  · cases h
  · split at h
    · split at h
      · cases Option.some.inj h; assumption
      · cases h
    · cases h

theorem reFindSubmatch_field (l : List Char) (k : String) (ds : List Char)
    (h : reFindSubmatch l = some (k, ds)) :
    k ∈ memInfoFields ∧ ds ≠ [] ∧ ∀ c ∈ ds, isDigit c = true := by
  cases hf : findFieldMatch memInfoFields l with
  | none => simp [reFindSubmatch, hf] at h
  | some kr =>
    obtain ⟨k0, rest⟩ := kr
    simp only [reFindSubmatch, hf] at h
    by_cases hds : (rest.dropWhile isWS).takeWhile isDigit = []
    · simp [hds] at h
    · rw [if_neg hds] at h
      obtain ⟨hk0, hds0⟩ : k0 = k ∧ (rest.dropWhile isWS).takeWhile isDigit = ds := by
        simpa using h
      subst hk0
      subst hds0
      exact ⟨(findFieldMatch_some memInfoFields l k0 rest hf).1, hds,
        fun c hc => mem_takeWhile_pred isDigit _ c hc⟩

/-- Agreement of the regex model with the pattern as the specification words
it: the regular expression matches a line with field name `k` and captured
digits `ds` exactly when the line decomposes as the specification describes. -/
theorem reFindSubmatch_eq_some_iff (l : List Char) (k : String) (ds : List Char) :
    reFindSubmatch l = some (k, ds) ↔ specMatches l k ds := by
  constructor
  · intro h
    cases hf : findFieldMatch memInfoFields l with
    | none => simp [reFindSubmatch, hf] at h
    | some kr =>
      obtain ⟨k0, rest⟩ := kr
      obtain ⟨hmem, hstrip⟩ := findFieldMatch_some memInfoFields l k0 rest hf
      simp only [reFindSubmatch, hf] at h
      by_cases hds : (rest.dropWhile isWS).takeWhile isDigit = []
      · simp [hds] at h
      · rw [if_neg hds] at h
        obtain ⟨hk0, hds0⟩ : k0 = k ∧ (rest.dropWhile isWS).takeWhile isDigit = ds := by
          simpa using h
        subst hk0
        subst hds0
        refine ⟨hmem, hds, fun c hc => mem_takeWhile_pred isDigit _ c hc,
          rest.takeWhile isWS, (rest.dropWhile isWS).dropWhile isDigit,
          fun c hc => mem_takeWhile_pred isWS _ c hc, ?_, ?_⟩
        · intro c hc
          cases hr : (rest.dropWhile isWS).dropWhile isDigit with
          | nil => rw [hr] at hc; cases hc
          | cons c0 t =>
            rw [hr] at hc
            simp only [List.take_succ_cons, List.take_zero, List.mem_singleton] at hc
            rw [hc]
            exact head_dropWhile_false isDigit (rest.dropWhile isWS) c0 (by rw [hr]; rfl)
        · have h1 : l = (k0.data ++ [':']) ++ rest := (stripLead_eq_some _ l rest).mp hstrip
          have h2 : rest.takeWhile isWS ++
              ((rest.dropWhile isWS).takeWhile isDigit ++
                (rest.dropWhile isWS).dropWhile isDigit) = rest := by
            rw [List.takeWhile_append_dropWhile, List.takeWhile_append_dropWhile]
          rw [h1, ← h2]
          simp [List.append_assoc]
  · intro h
    obtain ⟨hmem, hne, hdig, ws, rest, hws, hrest, hl⟩ := h
    have hstrip : stripLead (k.data ++ [':']) l = some (ws ++ (ds ++ rest)) := by
      rw [stripLead_eq_some, hl]
      simp [List.append_assoc]
    have hfind : findFieldMatch memInfoFields l = some (k, ws ++ (ds ++ rest)) := by
      refine findFieldMatch_eq_some memInfoFields l k _ hmem hstrip ?_
      intro k' hk' r' h'
      exact matched_key_unique l k k' _ r' hmem hk' hstrip h'
    have hdw : (ws ++ (ds ++ rest)).dropWhile isWS = ds ++ rest := by
      rw [List.dropWhile_append_of_pos (by intro a ha; exact hws a ha)]
      cases hd : ds with
      | nil => exact absurd hd hne
      | cons c t =>
        have hcd : isDigit c = true := hdig c (by rw [hd]; exact List.mem_cons_self _ _)
        rw [List.cons_append,
          List.dropWhile_cons_of_neg (by simp [isWS_of_isDigit c hcd])]
    have htw0 : rest.takeWhile isDigit = [] := by
      cases hr : rest with
      | nil => rfl
      | cons c t =>
        have hc : isDigit c = false := hrest c (by rw [hr]; simp)
        rw [List.takeWhile_cons_of_neg (by simp [hc])]
    have htw : (ds ++ rest).takeWhile isDigit = ds := by
      rw [List.takeWhile_append_of_pos (by intro a ha; exact hdig a ha), htw0,
        List.append_nil]
    simp [reFindSubmatch, hfind, hdw, htw, hne]

theorem processLine_match (m : MemStats) (l : List Char) (k : String) (ds : List Char)
    (h : reFindSubmatch l = some (k, ds)) (hlt : digitsVal ds < U64) :
    processLine m l = mapSet m k (digitsVal ds) := by
  obtain ⟨_, hne, hdig⟩ := reFindSubmatch_field l k ds h
  simp only [processLine, h, parseUint64_digits ds hne hdig, if_pos hlt]

theorem processLine_other_key (m : MemStats) (l : List Char) (k : String)
    (h : setsKey l k = false) : processLine m l k = m k := by
  cases hf : reFindSubmatch l with
  | none => simp only [processLine, hf]
  | some kds =>
    obtain ⟨k', ds⟩ := kds
    cases hp : parseUint64 ds with
    | none => simp only [processLine, hf, hp]
    | some v =>
      simp only [processLine, hf, hp]
      have hv : digitsVal ds < U64 := by
        have h1 := parseUint64_lt ds v hp
        obtain ⟨_, hne, hdig⟩ := reFindSubmatch_field l k' ds hf
        rw [parseUint64_digits ds hne hdig] at hp
        by_cases hlt : digitsVal ds < U64
        · exact hlt
        · rw [if_neg hlt] at hp; cases hp
      have hk : k ≠ k' := by
        intro he
        subst he
        rw [setsKey, hf] at h
        simp [hv] at h
      exact mapSet_ne m k' k v hk

theorem foldl_skip (pre post : List (List Char)) (l : List Char)
    (h : ∀ m : MemStats, processLine m l = m) (m0 : MemStats) :
    (pre ++ l :: post).foldl processLine m0 = (pre ++ post).foldl processLine m0 := by
  rw [List.foldl_append, List.foldl_append, List.foldl_cons, h]

theorem foldl_preserve_key (k : String) : ∀ (post : List (List Char)) (m : MemStats),
    (∀ l' ∈ post, setsKey l' k = false) →
    (post.foldl processLine m) k = m k := by
  intro post
  induction post with
  | nil => intro m _; rfl
  | cons l0 post ih =>
    intro m h
    rw [List.foldl_cons,
      ih (processLine m l0) (fun l' hl' => h l' (List.mem_cons_of_mem _ hl'))]
    exact processLine_other_key m l0 k (h l0 (List.mem_cons_self _ _))

theorem foldl_values_lt : ∀ (lines : List (List Char)) (m : MemStats),
    (∀ k v, m k = some v → v < U64) →
    ∀ k v, (lines.foldl processLine m) k = some v → v < U64 := by
  intro lines
  induction lines with
  | nil => intro m hm; exact hm
  | cons l0 lines ih =>
    intro m hm
    simp only [List.foldl_cons]
    apply ih
    intro k v hv
    cases hf : reFindSubmatch l0 with
    | none => simp only [processLine, hf] at hv; exact hm k v hv
    | some kds =>
      obtain ⟨k', ds⟩ := kds
      cases hp : parseUint64 ds with
      | none => simp only [processLine, hf, hp] at hv; exact hm k v hv
      | some w =>
        simp only [processLine, hf, hp] at hv
        by_cases hk : k = k'
        · subst hk
          rw [mapSet_same] at hv
          exact Option.some.inj hv ▸ parseUint64_lt ds w hp
        · rw [mapSet_ne m k' k w hk] at hv
          exact hm k v hv

theorem scan_values_lt (lines : List (List Char)) (k : String) (v : Nat)
    (h : scanLines lines k = some v) : v < U64 :=
  foldl_values_lt lines emptyStats (fun _ _ hv => Option.noConfusion hv) k v h

theorem addDerived_other (m : MemStats) (k : String)
    (h1 : k ≠ "MemUsed") (h2 : k ≠ "SwapUsed") (h3 : k ≠ "RealFree") :
    addDerived m k = m k := by
  simp [addDerived, mapSet, h1, h2, h3]

theorem addDerived_memUsed (m : MemStats) :
    addDerived m "MemUsed" = some (u64sub (lookup0 m "MemTotal") (lookup0 m "MemFree")) := by
  simp [addDerived, mapSet, lookup0]

theorem addDerived_swapUsed (m : MemStats) :
    addDerived m "SwapUsed" = some (u64sub (lookup0 m "SwapTotal") (lookup0 m "SwapFree")) := by
  simp [addDerived, mapSet, lookup0]

theorem addDerived_realFree (m : MemStats) :
    addDerived m "RealFree" =
      some ((lookup0 m "MemFree" + lookup0 m "Buffers" + lookup0 m "Cached") % U64) := by
  simp [addDerived, mapSet, lookup0]

theorem lookup0_addDerived (m : MemStats) (k : String)
    (h1 : k ≠ "MemUsed") (h2 : k ≠ "SwapUsed") (h3 : k ≠ "RealFree") :
    lookup0 (addDerived m) k = lookup0 m k := by
  rw [lookup0, lookup0, addDerived_other m k h1 h2 h3]

theorem memInfoFields_not_derived :
    ∀ k ∈ memInfoFields, k ≠ "MemUsed" ∧ k ≠ "SwapUsed" ∧ k ≠ "RealFree" := by
  decide

/-- C1: for every source on which getMemStats succeeds, the returned mapping
has all three derived keys set, with MemUsed equal to the mapping's MemTotal
value minus its MemFree value, SwapUsed equal to SwapTotal minus SwapFree, and
RealFree equal to MemFree plus Buffers plus Cached, in uint64 arithmetic over
the mapping's values, a missing key reading as zero, whatever keys the source
provided. -/
theorem C1_derived_keys_always_set (src : List (List Char)) (m : MemStats)
    (h : getMemStats (Except.ok src) = (some m, none)) :
    m "MemUsed" = some (u64sub (lookup0 m "MemTotal") (lookup0 m "MemFree")) ∧
    m "SwapUsed" = some (u64sub (lookup0 m "SwapTotal") (lookup0 m "SwapFree")) ∧
    m "RealFree" =
      some ((lookup0 m "MemFree" + lookup0 m "Buffers" + lookup0 m "Cached") % U64) := by
  have hm : addDerived (scanLines src) = m := by
    have h1 := congrArg Prod.fst h
    simpa [getMemStats] using h1
  subst hm
  refine ⟨?_, ?_, ?_⟩
  · rw [lookup0_addDerived (scanLines src) "MemTotal" (by decide) (by decide) (by decide),
      lookup0_addDerived (scanLines src) "MemFree" (by decide) (by decide) (by decide)]
    exact addDerived_memUsed (scanLines src)
  · rw [lookup0_addDerived (scanLines src) "SwapTotal" (by decide) (by decide) (by decide),
      lookup0_addDerived (scanLines src) "SwapFree" (by decide) (by decide) (by decide)]
    exact addDerived_swapUsed (scanLines src)
  · rw [lookup0_addDerived (scanLines src) "MemFree" (by decide) (by decide) (by decide),
      lookup0_addDerived (scanLines src) "Buffers" (by decide) (by decide) (by decide),
      lookup0_addDerived (scanLines src) "Cached" (by decide) (by decide) (by decide)]
    exact addDerived_realFree (scanLines src)

/-- Witness for C1: the derived-keys theorem applied to the first synthetic
example source. -/
theorem C1_witness :
    addDerived (scanLines exMem) "MemUsed" =
      some (u64sub (lookup0 (addDerived (scanLines exMem)) "MemTotal")
        (lookup0 (addDerived (scanLines exMem)) "MemFree")) ∧
    addDerived (scanLines exMem) "SwapUsed" =
      some (u64sub (lookup0 (addDerived (scanLines exMem)) "SwapTotal")
        (lookup0 (addDerived (scanLines exMem)) "SwapFree")) ∧
    addDerived (scanLines exMem) "RealFree" =
      some ((lookup0 (addDerived (scanLines exMem)) "MemFree" +
        lookup0 (addDerived (scanLines exMem)) "Buffers" +
        lookup0 (addDerived (scanLines exMem)) "Cached") % U64) :=
  C1_derived_keys_always_set exMem (addDerived (scanLines exMem)) rfl

/-- C2 as stated is refuted: the line `MemTotal: 18446744073709551616 kB`
satisfies the claimed recognition pattern (field name, colon, whitespace, one
or more digits, trailing text), yet it contributes no entry: ParseUint fails on
the out-of-range digit run and the line leaves the map unchanged. -/
theorem C2_counterexample :
    specMatches overLine "MemTotal" ("18446744073709551616".data) ∧
    processLine emptyStats overLine = emptyStats := by
  constructor
  · exact ⟨by decide, by decide, by decide, [' '], (" kB".data), by decide, by decide,
      by decide⟩
  · rfl

/-- C2 (amended): for every input line, the line contributes a (key, value)
entry iff it consists of a recognized field name at the start, immediately
followed by a colon, optional whitespace and one or more decimal digits whose
value fits in an unsigned 64-bit integer, trailing text after the digits being
ignored; the digit run's value is then stored under the matched field name,
while a pattern-matching line with an out-of-range digit run contributes
nothing. -/
theorem C2_line_contribution (l : List Char) (m : MemStats) :
    (∀ k ds, specMatches l k ds →
      processLine m l =
        if digitsVal ds < U64 then mapSet m k (digitsVal ds) else m) ∧
    ((∀ k ds, ¬ specMatches l k ds) → processLine m l = m) := by
  constructor
  · intro k ds hspec
    have hre : reFindSubmatch l = some (k, ds) :=
      (reFindSubmatch_eq_some_iff l k ds).mpr hspec
    obtain ⟨_, hne, hdig, _⟩ := hspec
    by_cases hlt : digitsVal ds < U64
    · rw [if_pos hlt]
      exact processLine_match m l k ds hre hlt
    · rw [if_neg hlt]
      simp only [processLine, hre, parseUint64_digits ds hne hdig, if_neg hlt]
  · intro hnone
    cases hre : reFindSubmatch l with
    | none => simp only [processLine, hre]
    | some kds =>
      obtain ⟨k, ds⟩ := kds
      exact absurd ((reFindSubmatch_eq_some_iff l k ds).mp hre) (hnone k ds)

/-- Witness for the amended C2 at the line `MemTotal: 1000 kB`. -/
theorem C2_witness :
    processLine emptyStats (lineOf "MemTotal: 1000 kB") =
      (if digitsVal ("1000".data) < U64
        then mapSet emptyStats "MemTotal" (digitsVal ("1000".data)) else emptyStats) :=
  (C2_line_contribution (lineOf "MemTotal: 1000 kB") emptyStats).1 "MemTotal" ("1000".data)
    ⟨by decide, by decide, by decide, [' '], (" kB".data), by decide, by decide, by decide⟩

/-- C3: an open failure is surfaced immediately as the error with a nil map,
and it is the only error condition: a successful open always returns a map and
a nil error, whatever the content. -/
theorem C3_open_failure_only_error :
    (∀ e, getMemStats (Except.error e) = (none, some e)) ∧
    (∀ src, getMemStats (Except.ok src) = (some (addDerived (scanLines src)), none)) :=
  ⟨fun _ => rfl, fun _ => rfl⟩

/-- C4: a line whose numeric portion cannot be parsed as a uint64 (either the
regex finds no digit run on it, as on `MemTotal: abc kB`, or ParseUint fails on
the captured run) is skipped: the call behaves exactly as if the line were
absent, so it still succeeds on the other lines and the affected key gets no
entry from this line. -/
theorem C4_unparsable_line_skipped (pre post : List (List Char)) (l : List Char)
    (h : reFindSubmatch l = none ∨
      ∃ k ds, reFindSubmatch l = some (k, ds) ∧ parseUint64 ds = none) :
    getMemStats (Except.ok (pre ++ l :: post)) = getMemStats (Except.ok (pre ++ post)) := by
  have hskip : ∀ m : MemStats, processLine m l = m := by
    intro m
    rcases h with h | ⟨k, ds, h1, h2⟩
    · simp only [processLine, h]
    · simp only [processLine, h1, h2]
  simp only [getMemStats, scanLines, foldl_skip pre post l hskip]

/-- Witness for C4: the non-numeric line of the spec's example is skipped, the
call succeeds on the remaining line, and MemTotal is absent from the result. -/
theorem C4_witness :
    getMemStats (Except.ok [lineOf "MemTotal: abc kB", lineOf "MemFree: 200 kB"]) =
      getMemStats (Except.ok [lineOf "MemFree: 200 kB"]) ∧
    addDerived (scanLines [lineOf "MemTotal: abc kB", lineOf "MemFree: 200 kB"]) "MemTotal" =
      none :=
  ⟨C4_unparsable_line_skipped [] [lineOf "MemFree: 200 kB"] (lineOf "MemTotal: abc kB")
      (Or.inl (by decide)),
    by decide⟩

/-- C5: an input of a derived statistic that is absent from the collected
mapping is treated as zero, in uint64 modular arithmetic: with MemTotal absent
and MemFree present with value n greater than 0, MemUsed underflows to
2 ^ 64 - n. -/
theorem C5_missing_input_underflow (src : List (List Char)) (m : MemStats) (n : Nat)
    (h : getMemStats (Except.ok src) = (some m, none))
    (hTot : m "MemTotal" = none) (hFree : m "MemFree" = some n) (hn : 0 < n) :
    m "MemUsed" = some (U64 - n) := by
  have hm : addDerived (scanLines src) = m := by
    have h1 := congrArg Prod.fst h
    simpa [getMemStats] using h1
  subst hm
  rw [addDerived_other (scanLines src) "MemTotal" (by decide) (by decide) (by decide)] at hTot
  rw [addDerived_other (scanLines src) "MemFree" (by decide) (by decide) (by decide)] at hFree
  rw [addDerived_memUsed (scanLines src)]
  simp only [lookup0, hTot, hFree, Option.getD_none, Option.getD_some, u64sub, Nat.zero_add]
  congr 1
  exact Nat.mod_eq_of_lt (Nat.sub_lt (by decide) hn)

/-- Witness for C5: a source holding only `MemFree: 200 kB` yields
MemUsed = 2 ^ 64 - 200. -/
theorem C5_witness :
    addDerived (scanLines [lineOf "MemFree: 200 kB"]) "MemUsed" = some (U64 - 200) :=
  C5_missing_input_underflow [lineOf "MemFree: 200 kB"]
    (addDerived (scanLines [lineOf "MemFree: 200 kB"])) 200 rfl (by decide) (by decide)
    (by decide)

/-- C6: the three synthetic sources of the spec's testable properties produce
MemTotal = 1000, MemFree = 200 and MemUsed = 800; SwapUsed = 400; and
RealFree = 280 respectively. -/
theorem C6_synthetic_examples :
    (∃ m, getMemStats (Except.ok exMem) = (some m, none) ∧
      m "MemTotal" = some 1000 ∧ m "MemFree" = some 200 ∧ m "MemUsed" = some 800) ∧
    (∃ m, getMemStats (Except.ok exSwap) = (some m, none) ∧ m "SwapUsed" = some 400) ∧
    (∃ m, getMemStats (Except.ok exReal) = (some m, none) ∧ m "RealFree" = some 280) := by
  refine ⟨⟨_, rfl, ?_, ?_, ?_⟩, ⟨_, rfl, ?_⟩, ⟨_, rfl, ?_⟩⟩ <;> decide

/-- C7: a line that begins with no recognized field name followed by a colon
contributes nothing under any key: the result equals the one for the source
without that line. -/
theorem C7_unrecognized_line_ignored (pre post : List (List Char)) (l : List Char)
    (h : ∀ k ∈ memInfoFields, stripLead (k.data ++ [':']) l = none) :
    getMemStats (Except.ok (pre ++ l :: post)) = getMemStats (Except.ok (pre ++ post)) := by
  have hre : reFindSubmatch l = none := by
    simp only [reFindSubmatch, findFieldMatch_none memInfoFields l h]
  have hskip : ∀ m : MemStats, processLine m l = m := fun m => by
    simp only [processLine, hre]
  simp only [getMemStats, scanLines, foldl_skip pre post l hskip]

/-- Witness for C7 with the spec's example line `VmallocTotal: 999 kB`. -/
theorem C7_witness :
    getMemStats (Except.ok [lineOf "VmallocTotal: 999 kB", lineOf "MemFree: 200 kB"]) =
      getMemStats (Except.ok [lineOf "MemFree: 200 kB"]) :=
  C7_unrecognized_line_ignored [] [lineOf "MemFree: 200 kB"] (lineOf "VmallocTotal: 999 kB")
    (by decide)

/-- C8: getMemStats is deterministic in the resource's content: two runs over
the same content produce identical results, both the mapping and the
success or failure outcome. -/
theorem C8_deterministic (src : Except String (List (List Char)))
    (r1 r2 : Option MemStats × Option String)
    (h1 : getMemStats src = r1) (h2 : getMemStats src = r2) : r1 = r2 :=
  h1.symm.trans h2

/-- Witness for C8 at a concrete source. -/
theorem C8_witness :
    getMemStats (Except.ok exMem) = getMemStats (Except.ok exMem) :=
  C8_deterministic (Except.ok exMem) (getMemStats (Except.ok exMem))
    (getMemStats (Except.ok exMem)) rfl rfl

/-- C9: when several valid matching lines set the same recognized field, the
returned mapping holds the value of the last such line: later valid
assignments overwrite earlier ones, and neither the remaining lines nor the
derived writes disturb the key. -/
theorem C9_last_valid_line_wins (pre post : List (List Char)) (l : List Char)
    (k : String) (ds : List Char) (m : MemStats)
    (h1 : reFindSubmatch l = some (k, ds)) (h2 : digitsVal ds < U64)
    (h3 : ∀ l' ∈ post, setsKey l' k = false)
    (hm : getMemStats (Except.ok (pre ++ l :: post)) = (some m, none)) :
    m k = some (digitsVal ds) := by
  have hmm : addDerived (scanLines (pre ++ l :: post)) = m := by
    have hp := congrArg Prod.fst hm
    simpa [getMemStats] using hp
  subst hmm
  have hk : k ∈ memInfoFields := (reFindSubmatch_field l k ds h1).1
  obtain ⟨d1, d2, d3⟩ := memInfoFields_not_derived k hk
  rw [addDerived_other _ k d1 d2 d3]
  simp only [scanLines, List.foldl_append, List.foldl_cons]
  rw [processLine_match _ l k ds h1 h2, foldl_preserve_key k post _ h3]
  exact mapSet_same _ k _

/-- Witness for C9: of two valid `MemTotal` lines the later value 7 wins, and
a later line for another field does not disturb it. -/
theorem C9_witness :
    addDerived (scanLines
      [lineOf "MemTotal: 5 kB", lineOf "MemTotal: 7 kB", lineOf "MemFree: 3 kB"]) "MemTotal" =
      some (digitsVal ("7".data)) :=
  C9_last_valid_line_wins [lineOf "MemTotal: 5 kB"] [lineOf "MemFree: 3 kB"]
    (lineOf "MemTotal: 7 kB") "MemTotal" ("7".data) _ (by decide) (by decide) (by decide) rfl

/-- C10: every regex match captures a nonempty run of decimal digits, the
ParseUint branch fails exactly when the captured run denotes a value greater
than 2 ^ 64 - 1, and a matched line whose value fits in 64 bits is stored
under the matched field name. -/
theorem C10_parse_failure_only_overflow (l : List Char) (k : String) (ds : List Char)
    (h : reFindSubmatch l = some (k, ds)) :
    (ds ≠ [] ∧ ∀ c ∈ ds, isDigit c = true) ∧
    (parseUint64 ds = none ↔ U64 ≤ digitsVal ds) ∧
    (∀ m : MemStats, digitsVal ds < U64 → processLine m l = mapSet m k (digitsVal ds)) := by
  obtain ⟨_, hne, hdig⟩ := reFindSubmatch_field l k ds h
  refine ⟨⟨hne, hdig⟩, ?_, fun m hlt => processLine_match m l k ds h hlt⟩
  rw [parseUint64_digits ds hne hdig]
  by_cases hlt : digitsVal ds < U64
  · rw [if_pos hlt]
    exact iff_of_false (Option.some_ne_none _) (Nat.not_le.mpr hlt)
  · rw [if_neg hlt]
    exact iff_of_true rfl (Nat.le_of_not_lt hlt)

/-- Witness for C10 at the line `Slab: 42 kB`. -/
theorem C10_witness :
    (("42".data ≠ []) ∧ ∀ c ∈ "42".data, isDigit c = true) ∧
    (parseUint64 ("42".data) = none ↔ U64 ≤ digitsVal ("42".data)) ∧
    (∀ m : MemStats, digitsVal ("42".data) < U64 →
      processLine m (lineOf "Slab: 42 kB") = mapSet m "Slab" (digitsVal ("42".data))) :=
  C10_parse_failure_only_overflow (lineOf "Slab: 42 kB") "Slab" ("42".data) (by decide)

end Sysstats
